import Mathlib

/-!
Verification of the voice2json grammar-compilation / intent-recognition
orchestration code (`voice2json/__init__.py`, `voice2json/__main__.py`,
`voice2json/train/__init__.py`) against its natural-language specification.

The Python code is shallowly embedded: files are lists of lines, symbol
tables are lists of symbols in key order, Python dicts are association
lists with first-occurrence update semantics, Python sets are duplicate-free
lists with membership-based insertion, and `sys.exit(1)` is an explicit
`CommandOutcome.exited 1` value.
-/

/-- Embeds Python `str.strip()`: drop leading and trailing whitespace. -/
def py_strip (s : String) : String :=
  String.mk (((s.data.dropWhile Char.isWhitespace).reverse.dropWhile Char.isWhitespace).reverse)

/-- Embeds Python `str.startswith`, character by character. -/
def py_starts_with (s head : String) : Bool :=
  head.data.isPrefixOf s.data

/-- Embeds Python `str.lower()`, character by character. -/
def py_lower (s : String) : String :=
  String.mk (s.data.map Char.toLower)

/-- Embeds the marker test shared by `do_vocab` (train/__init__.py lines 310)
and `get_recognizer` (__init__.py line 214):
`token.startswith("__") or token.startswith("<")`. -/
def is_meta_token (token : String) : Bool :=
  py_starts_with token "__" || py_starts_with token "<"

/-- Embeds `do_vocab` (train/__init__.py lines 305-311): for each input symbol
of the merged intent FST, strip it, and write it to the vocabulary file when
it does not start with `__` or `<`.  The result is the list of written lines;
the symbol table is given as the list of its symbols in key order. -/
def do_vocab (input_symbols : List String) : List String :=
  input_symbols.filterMap (fun s =>
    let symbol := py_strip s
    if is_meta_token symbol then none else some symbol)

/-- Embeds the known-token loop of `get_recognizer` (__init__.py lines 205-215):
when `skip_unknown` is set, collect every input symbol that does not start
with `__` or `<`, without stripping; otherwise the set stays empty. -/
def get_recognizer_known_tokens (skip_unknown : Bool) (input_symbols : List String) :
    List String :=
  if skip_unknown then input_symbols.filter (fun token => !(is_meta_token token)) else []

/-- Embeds the stop-word loading of `get_recognizer` (__init__.py lines 200-203).
`stop_words` is initialized to the empty Python `set`; when a stop-words file
is configured the code calls `stop_words.extend(...)`, but `set` objects have
no `extend` method, so the call raises `AttributeError` and construction
aborts.  The configured file is given as `some` of its lines. -/
def get_recognizer_stop_words (stop_words_file : Option (List String)) :
    Except String (List String) :=
  match stop_words_file with
  | none => Except.ok []
  | some _ => Except.error "AttributeError: set object has no attribute extend"

/-- Embeds the `StrictRecognizer` class state (__init__.py lines 242-247):
it stores the intent FST, the known tokens and the lower-case flag.
The FST itself is opaque data of type `φ`. -/
structure StrictRecognizer (φ : Type) where
  intent_fst : φ
  known_tokens : List String
  lower_case : Bool

/-- Embeds the `FuzzyRecognizer` class state (__init__.py lines 221-226):
it stores the intent graph, the known tokens, the lower-case flag and the
stop words.  The graph is opaque data of type `γ`. -/
structure FuzzyRecognizer (γ : Type) where
  intent_graph : γ
  known_tokens : List String
  lower_case : Bool
  stop_words : List String

/-- Embeds the in-method case handling shared by both `recognize` methods
(__init__.py lines 229-231 and 249-251): `if self.lower_case: text = text.lower()`. -/
def recognizer_input_text (lower_case : Bool) (text : String) : String :=
  if lower_case then py_lower text else text

/-- Embeds `StrictRecognizer.recognize` (__init__.py lines 248-252):
lower-case the text when configured, then call the strict matching core
`recognize(self.intent_fst, text, self.known_tokens)`.  The core
(`voice2json.intent.fsticuffs.recognize`) lives outside the shown sources,
so it is a parameter; the method passes it exactly the stored FST, the
processed text and the stored known tokens. -/
def StrictRecognizer.recognizeWith {φ α : Type} (core : φ → String → List String → α)
    (r : StrictRecognizer φ) (text : String) : α :=
  core r.intent_fst (recognizer_input_text r.lower_case text) r.known_tokens

/-- Embeds `FuzzyRecognizer.recognize` (__init__.py lines 228-237):
lower-case the text when configured, then call the fuzzy matching core
`recognize_fuzzy(self.intent_graph, text, known_tokens=..., stop_words=...)`.
The core is a parameter exactly as in `StrictRecognizer.recognizeWith`. -/
def FuzzyRecognizer.recognizeWith {γ α : Type}
    (core : γ → String → List String → List String → α)
    (r : FuzzyRecognizer γ) (text : String) : α :=
  core r.intent_graph (recognizer_input_text r.lower_case text) r.known_tokens r.stop_words

/-- Embeds the strict branch of `get_recognizer` (__init__.py lines 240-254):
with the stop words already loaded and in scope, the returned recognizer is
`StrictRecognizer(intent_fst, known_tokens, lower_case)` — the stop words are
not stored. -/
def get_recognizer_strict_branch {φ : Type} (intent_fst : φ) (known_tokens : List String)
    (lower_case : Bool) (stop_words : List String) : StrictRecognizer φ :=
  ⟨intent_fst, known_tokens, lower_case⟩

/-- Embeds Python dict item assignment `d[k] = v`: replace the binding of the
first occurrence of `k`, or append a new binding when `k` is absent. -/
def dict_set {α : Type} (d : List (String × α)) (k : String) (v : α) : List (String × α) :=
  match d with
  | [] => [(k, v)]
  | (k2, v2) :: rest => if k2 = k then (k, v) :: rest else (k2, v2) :: dict_set rest k v

/-- Embeds Python dict lookup `d[k]` / `d.get(k)`: the value bound to the
first occurrence of `k`, if any. -/
def dict_get {α : Type} (d : List (String × α)) (k : String) : Option α :=
  match d with
  | [] => none
  | (k2, v2) :: rest => if k2 = k then some v2 else dict_get rest k

/-- Embeds the slot construction of `generate` (__main__.py lines 774-777):
`intent["slots"] = {}`, then `intent["slots"][ev["entity"]] = ev["value"]` for
each decoded entity in order.  Entities are given as (entity, value) pairs. -/
def generate_slots (entities : List (String × String)) : List (String × String) :=
  entities.foldl (fun slots ev => dict_set slots ev.1 ev.2) []

/-- Embeds the output merge of `recognize` (__main__.py lines 470-472):
`for key, value in intent.items(): sentence_object[key] = value`, applied to
the JSON object parsed from the input line. -/
def recognize_merge_output {α : Type} (sentence_object : List (String × α))
    (intent : List (String × α)) : List (String × α) :=
  intent.foldl (fun obj kv => dict_set obj kv.1 kv.2) sentence_object

/-- Embeds the path-source branch of `generate` (__main__.py lines 758-763):
`rand_fst = intent_fst` when the requested number is at most zero, and
`rand_fst = fst.randgen(intent_fst, npath=number)` otherwise.  The FST library
sampler `randgen` is a parameter. -/
def generate_rand_fst {α : Type} (randgen_fn : α → Int → α) (number : Int)
    (intent_fst : α) : α :=
  if number ≤ 0 then intent_fst else randgen_fn intent_fst number

/-- Embeds the output loop of `generate` (__main__.py lines 758-772):
every path printed from `rand_fst` by `fstprintall` is decoded with
`symbols2intent`.  Both library helpers are parameters. -/
def generate_intents {α β : Type} (randgen_fn : α → Int → α)
    (fstprintall_fn : α → List (List String)) (symbols2intent_fn : List String → β)
    (number : Int) (intent_fst : α) : List β :=
  (fstprintall_fn (generate_rand_fst randgen_fn number intent_fst)).map symbols2intent_fn

/-- Existence of the three artifacts checked by `check_trained`
(__main__.py lines 1234-1256). -/
structure ProfileFiles where
  dictionary_exists : Bool
  language_model_exists : Bool
  intent_fst_exists : Bool

/-- Embeds the loop of `check_trained` (__main__.py lines 1249-1253):
`missing` starts false and is set when any of the dictionary, language-model
or intent-FST files does not exist. -/
def check_trained_missing (p : ProfileFiles) : Bool :=
  [p.dictionary_exists, p.language_model_exists, p.intent_fst_exists].foldl
    (fun missing ex => missing || !ex) false

/-- Outcome of running a subcommand: either the process exited with a status
code, or the command's remaining work ran to completion. -/
inductive CommandOutcome (α : Type) where
  | exited (code : Nat)
  | completed (result : α)
deriving DecidableEq, Repr

/-- Embeds the shared shape of every trained-profile subcommand: it calls
`check_trained(profile, profile_dir)` first, which exits the process with
status 1 when any artifact is missing (`sys.exit(1)`, __main__.py line 1256);
only otherwise does the rest of the command body run. -/
def run_trained_command {α : Type} (p : ProfileFiles) (work : Unit → α) : CommandOutcome α :=
  if check_trained_missing p then CommandOutcome.exited 1
  else CommandOutcome.completed (work ())

/-- Embeds `transcribe` (__main__.py line 339): `check_trained` then the body. -/
def transcribe_command {α : Type} (p : ProfileFiles) (work : Unit → α) : CommandOutcome α :=
  run_trained_command p work

/-- Embeds `recognize` (__main__.py line 392): `check_trained` then the body. -/
def recognize_command {α : Type} (p : ProfileFiles) (work : Unit → α) : CommandOutcome α :=
  run_trained_command p work

/-- Embeds `generate` (__main__.py line 748): `check_trained` then the body. -/
def generate_command {α : Type} (p : ProfileFiles) (work : Unit → α) : CommandOutcome α :=
  run_trained_command p work

/-- Embeds `record_examples` (__main__.py line 830): `check_trained` then the body. -/
def record_examples_command {α : Type} (p : ProfileFiles) (work : Unit → α) : CommandOutcome α :=
  run_trained_command p work

/-- Embeds `test_examples` (__main__.py line 948): `check_trained` then the body. -/
def test_examples_command {α : Type} (p : ProfileFiles) (work : Unit → α) : CommandOutcome α :=
  run_trained_command p work

/-- Embeds `record_command` (__main__.py line 487): `check_trained` then the body. -/
def record_command_command {α : Type} (p : ProfileFiles) (work : Unit → α) : CommandOutcome α :=
  run_trained_command p work

/-- Embeds `intent_pattern.match(line)` (train/__init__.py line 412):
the regular expression is anchored at the start and captures `[^\]]+`
between a literal open and close bracket; the capture group is returned. -/
def intent_header_match (line : String) : Option String :=
  match line.data with
  | '[' :: rest =>
      let name := rest.takeWhile (fun c => c ≠ ']')
      if name.isEmpty then none
      else if (rest.dropWhile (fun c => c ≠ ']')).isEmpty then none
      else some (String.mk name)
  | _ => none

/-- Embeds `_get_intents` (train/__init__.py lines 415-422): the header names
matched on the stripped lines of sentences.ini. -/
def get_intents (ini_lines : List String) : List String :=
  ini_lines.filterMap (fun line => intent_header_match (py_strip line))

/-- Embeds Python `set.add` on a duplicate-free list. -/
def py_set_add (s : List String) (x : String) : List String :=
  if x ∈ s then s else s ++ [x]

/-- Embeds one iteration of the whitelist loop of `train_profile`
(train/__init__.py lines 90-100): strip the line; when non-empty, clear the
intent set the first time (switching the `whitelist` variable from `None` to
a list) and add the line to both the whitelist and the intent set. -/
def whitelist_step (st : Option (List String) × List String) (raw_line : String) :
    Option (List String) × List String :=
  let line := py_strip raw_line
  if 0 < line.length then
    match st.1 with
    | none => (some [line], py_set_add [] line)
    | some wl => (some (wl ++ [line]), py_set_add st.2 line)
  else st

/-- Embeds the intent-selection prologue of `train_profile`
(train/__init__.py lines 82-100): the intent set starts as the headers of
sentences.ini; when the whitelist file exists (`some` of its lines) its lines
are folded through `whitelist_step`. -/
def train_profile_intents (sentences_ini_lines : List String)
    (whitelist_file : Option (List String)) : List String :=
  let intents := (get_intents sentences_ini_lines).foldl py_set_add []
  match whitelist_file with
  | none => intents
  | some wl_lines => (wl_lines.foldl whitelist_step (none, intents)).2

/-! ## Helper lemmas -/

theorem do_vocab_eq_of_stripped (symbols : List String)
    (h : ∀ s ∈ symbols, py_strip s = s) :
    do_vocab symbols = get_recognizer_known_tokens true symbols := by
  induction symbols with
  | nil => rfl
  | cons s rest ih =>
    have hs : py_strip s = s := h s (List.mem_cons_self s rest)
    have ih2 := ih (fun x hx => h x (List.mem_cons_of_mem s hx))
    simp only [do_vocab, get_recognizer_known_tokens, if_true] at ih2 ⊢
    simp only [List.filterMap_cons, List.filter_cons, hs]
    cases hm : is_meta_token s with
    | true => simpa [hm] using ih2
    | false => simp [hm, ih2]

/-! ## Claim theorems -/

/-- C1, counterexample: the vocabulary export strips symbols before writing
them while the recognition-time known-token set does not, so for a merged
automaton whose symbol table holds the symbol " a" (leading space) the two
sets differ: the vocabulary contains "a" and the known-token set does not. -/
theorem vocab_known_tokens_differ_on_whitespace :
    "a" ∈ do_vocab [" a"] ∧ "a" ∉ get_recognizer_known_tokens true [" a"] := by
  decide

/-- C1, amended: when no input symbol of the merged automaton carries leading
or trailing whitespace (true of tokenized grammars), the vocabulary written by
`do_vocab` at training time and the known-token set built by `get_recognizer`
at recognition time are the same set, namely the input symbols with every
symbol starting with "__" or "<" excluded. -/
theorem vocab_eq_known_tokens_of_trimmed (symbols : List String)
    (h : ∀ s ∈ symbols, py_strip s = s) (t : String) :
    t ∈ do_vocab symbols ↔ t ∈ get_recognizer_known_tokens true symbols := by
  rw [do_vocab_eq_of_stripped symbols h]

/-- C1, witness: the amended equivalence evaluated on a concrete symbol table
with one marker symbol and the epsilon symbol. -/
theorem vocab_eq_known_tokens_witness :
    "hello" ∈ do_vocab ["hello", "world", "__label__x", "<eps>"] ↔
      "hello" ∈ get_recognizer_known_tokens true ["hello", "world", "__label__x", "<eps>"] :=
  vocab_eq_known_tokens_of_trimmed ["hello", "world", "__label__x", "<eps>"] (by decide) "hello"

/-- C2 (code bug): with no stop-words file configured, `get_recognizer` builds
the empty stop-word set; but with a configured stop-words file the call
`stop_words.extend(...)` raises `AttributeError` (Python sets have no `extend`
method), so construction fails instead of loading the stripped lines. -/
theorem stop_words_load_attribute_error :
    get_recognizer_stop_words none = Except.ok []
    ∧ get_recognizer_stop_words (some ["the", "a", "please"])
        = Except.error "AttributeError: set object has no attribute extend" :=
  ⟨rfl, rfl⟩

/-- C3: the strict recognizer built by `get_recognizer` from the same
automaton, known tokens and case flag, but with any two loaded stop-word
sets, returns the same result on every input text and for every strict
matching core — the strict branch neither stores nor passes stop words. -/
theorem strict_recognizer_stop_words_noninterference {φ α : Type}
    (core : φ → String → List String → α) (intent_fst : φ) (known_tokens : List String)
    (lower_case : Bool) (stop_words1 stop_words2 : List String) (text : String) :
    StrictRecognizer.recognizeWith core
        (get_recognizer_strict_branch intent_fst known_tokens lower_case stop_words1) text
      = StrictRecognizer.recognizeWith core
        (get_recognizer_strict_branch intent_fst known_tokens lower_case stop_words2) text :=
  rfl

/-- C4: recognition is deterministic — both recognize methods are functions of
the stored automaton/graph, configuration and input text alone, so two calls
with the same input text on the same recognizer return identical results, for
any (pure) matching cores. -/
theorem recognize_deterministic {φ γ α β : Type}
    (strict_core : φ → String → List String → α)
    (fuzzy_core : γ → String → List String → List String → β)
    (sr : StrictRecognizer φ) (fr : FuzzyRecognizer γ) (text : String) :
    StrictRecognizer.recognizeWith strict_core sr text
        = StrictRecognizer.recognizeWith strict_core sr text
    ∧ FuzzyRecognizer.recognizeWith fuzzy_core fr text
        = FuzzyRecognizer.recognizeWith fuzzy_core fr text :=
  ⟨rfl, rfl⟩

/-- C5, counterexample: with the lower-case setting enabled, both recognizers
do normalize case themselves — a matching core that reports the text it
receives is handed "on" when the caller passed "ON". -/
theorem recognizer_lowercases_counterexample :
    FuzzyRecognizer.recognizeWith (fun (_ : Unit) t _ _ => t)
        ⟨(), [], true, []⟩ "ON" = "on"
    ∧ StrictRecognizer.recognizeWith (fun (_ : Unit) t _ => t)
        ⟨(), [], true⟩ "ON" = "on"
    ∧ "on" ≠ "ON" := by
  refine ⟨by decide, by decide, by decide⟩

/-- C5, amended: when the intent-recognition lower-case setting is false (the
default), both recognizers pass the input text to the matching core exactly as
received; when the setting is true, the recognizer itself lowercases the text
before matching. -/
theorem recognizer_case_policy {φ γ α β : Type}
    (strict_core : φ → String → List String → α)
    (fuzzy_core : γ → String → List String → List String → β)
    (intent_fst : φ) (intent_graph : γ) (known_tokens stop_words : List String)
    (text : String) :
    (StrictRecognizer.recognizeWith strict_core ⟨intent_fst, known_tokens, false⟩ text
      = strict_core intent_fst text known_tokens)
    ∧ (FuzzyRecognizer.recognizeWith fuzzy_core
        ⟨intent_graph, known_tokens, false, stop_words⟩ text
      = fuzzy_core intent_graph text known_tokens stop_words)
    ∧ (StrictRecognizer.recognizeWith strict_core ⟨intent_fst, known_tokens, true⟩ text
      = strict_core intent_fst (py_lower text) known_tokens)
    ∧ (FuzzyRecognizer.recognizeWith fuzzy_core
        ⟨intent_graph, known_tokens, true, stop_words⟩ text
      = fuzzy_core intent_graph (py_lower text) known_tokens stop_words) :=
  ⟨rfl, rfl, rfl, rfl⟩

/-- The value attached to the last occurrence of key `k` in an item list;
this is the "later entry wins" reading of folding entities into a dict. -/
def last_value {α : Type} (items : List (String × α)) (k : String) : Option α :=
  match items with
  | [] => none
  | kv :: rest =>
    match last_value rest k with
    | some v => some v
    | none => if kv.1 = k then some kv.2 else none

theorem dict_get_dict_set {α : Type} (d : List (String × α)) (k k2 : String) (v : α) :
    dict_get (dict_set d k v) k2 = if k = k2 then some v else dict_get d k2 := by
  induction d with
  | nil => simp [dict_set, dict_get]
  | cons kv rest ih =>
    obtain ⟨k3, v3⟩ := kv
    simp only [dict_set]
    by_cases h3 : k3 = k
    · subst h3
      by_cases h2 : k3 = k2 <;> simp [dict_get, h2]
    · simp only [if_neg h3, dict_get]
      by_cases h23 : k3 = k2
      · subst h23
        have hne : ¬ k = k3 := fun h => h3 h.symm
        simp [hne]
      · simp [h23, ih]

theorem dict_get_fold_set {α : Type} (items : List (String × α)) :
    ∀ (d : List (String × α)) (k : String),
    dict_get (items.foldl (fun acc kv => dict_set acc kv.1 kv.2) d) k
      = (match last_value items k with
         | some v => some v
         | none => dict_get d k) := by
  induction items with
  | nil => intro d k; rfl
  | cons kv rest ih =>
    intro d k
    obtain ⟨k1, v1⟩ := kv
    simp only [List.foldl_cons]
    rw [ih]
    simp only [last_value]
    cases hf : last_value rest k with
    | some v => simp
    | none =>
      simp only [dict_get_dict_set]
      by_cases h1 : k1 = k <;> simp [h1]

theorem last_value_isSome {α : Type} (items : List (String × α)) (k : String) :
    (last_value items k).isSome = true ↔ k ∈ items.map Prod.fst := by
  induction items with
  | nil => simp [last_value]
  | cons kv rest ih =>
    obtain ⟨k1, v1⟩ := kv
    simp only [last_value, List.map_cons, List.mem_cons]
    cases hf : last_value rest k with
    | some v =>
      have : k ∈ rest.map Prod.fst := ih.mp (by simp [hf])
      simp [this]
    | none =>
      have hnotin : ¬ k ∈ rest.map Prod.fst := fun hmem => by
        have := ih.mpr hmem
        rw [hf] at this
        simp at this
      by_cases h1 : k1 = k
      · simp [h1, hnotin]
      · have h1s : ¬ k = k1 := fun h => h1 h.symm
        simp [h1, h1s, hnotin]

theorem last_value_eq_dict_get_of_nodup {α : Type} (items : List (String × α))
    (k : String) (hnd : (items.map Prod.fst).Nodup) :
    last_value items k = dict_get items k := by
  induction items with
  | nil => rfl
  | cons kv rest ih =>
    obtain ⟨k1, v1⟩ := kv
    simp only [List.map_cons, List.nodup_cons] at hnd
    simp only [last_value, dict_get]
    by_cases h1 : k1 = k
    · subst h1
      have : last_value rest k1 = none := by
        cases hlv : last_value rest k1 with
        | none => rfl
        | some v =>
          exact absurd ((last_value_isSome rest k1).mp (by simp [hlv])) hnd.1
      simp [this]
    · rw [ih hnd.2]
      cases hg : dict_get rest k <;> simp [h1]

/-- C6: the slots map produced by the example generator is the left fold of
the decoded entities into a dict keyed by entity name: every entity name in
the list is a key of slots, and the value kept for a name is the value of its
last (latest) entity. -/
theorem slots_eq_fold_entities (entities : List (String × String)) (name : String) :
    dict_get (generate_slots entities) name = last_value entities name
    ∧ (name ∈ entities.map Prod.fst ↔ (dict_get (generate_slots entities) name).isSome = true) := by
  have h := dict_get_fold_set entities [] name
  constructor
  · rw [generate_slots, h]
    cases hf : last_value entities name <;> simp [dict_get]
  · rw [generate_slots, h]
    cases hf : last_value entities name with
    | some v =>
      simp only [hf]
      have := (last_value_isSome entities name).mp (by simp [hf])
      simp [this]
    | none =>
      have : ¬ name ∈ entities.map Prod.fst := fun hmem => by
        have := (last_value_isSome entities name).mpr hmem
        rw [hf] at this
        simp at this
      simp [this, dict_get]

/-- C7: the example generator branches exactly on the sign of the requested
count: when the count is at most zero the produced examples are the decodings
of all paths printed from the merged automaton itself, and when the count is
positive they are the decodings of the paths printed from
`randgen(intent_fst, npath=count)`. -/
theorem generate_branches_on_sign {α β : Type} (randgen_fn : α → Int → α)
    (fstprintall_fn : α → List (List String)) (symbols2intent_fn : List String → β)
    (number : Int) (intent_fst : α) :
    (number ≤ 0 →
      generate_intents randgen_fn fstprintall_fn symbols2intent_fn number intent_fst
        = (fstprintall_fn intent_fst).map symbols2intent_fn)
    ∧ (0 < number →
      generate_intents randgen_fn fstprintall_fn symbols2intent_fn number intent_fst
        = (fstprintall_fn (randgen_fn intent_fst number)).map symbols2intent_fn) := by
  constructor
  · intro h
    simp [generate_intents, generate_rand_fst, h]
  · intro h
    have hn : ¬ number ≤ 0 := by omega
    simp [generate_intents, generate_rand_fst, hn]

/-- C7, witness: the enumerate-all branch evaluated at count 0 on a concrete
automaton stand-in. -/
theorem generate_branches_on_sign_witness :
    generate_intents (fun (f : Nat) (n : Int) => f + n.toNat) (fun _ => [["a"], ["b", "c"]])
        (fun s => s.length) 0 7
      = ([["a"], ["b", "c"]] : List (List String)).map (fun s => s.length) :=
  (generate_branches_on_sign (fun (f : Nat) (n : Int) => f + n.toNat)
    (fun _ => [["a"], ["b", "c"]]) (fun s => s.length) 0 7).1 (by decide)

/-- C8: every trained-profile subcommand (transcribe, recognize, generate,
record-examples, test-examples, record-command) first runs `check_trained`,
so when the configured dictionary, language-model or intent-FST file is
missing the process exits with status 1 before any of the command's work runs. -/
theorem trained_commands_exit_when_missing {α : Type} (p : ProfileFiles)
    (w1 w2 w3 w4 w5 w6 : Unit → α)
    (h : p.dictionary_exists = false ∨ p.language_model_exists = false
        ∨ p.intent_fst_exists = false) :
    transcribe_command p w1 = CommandOutcome.exited 1
    ∧ recognize_command p w2 = CommandOutcome.exited 1
    ∧ generate_command p w3 = CommandOutcome.exited 1
    ∧ record_examples_command p w4 = CommandOutcome.exited 1
    ∧ test_examples_command p w5 = CommandOutcome.exited 1
    ∧ record_command_command p w6 = CommandOutcome.exited 1 := by
  have hm : check_trained_missing p = true := by
    obtain ⟨d, l, f⟩ := p
    simp only [check_trained_missing, List.foldl]
    rcases h with h | h | h <;> subst h <;> simp
  simp [transcribe_command, recognize_command, generate_command, record_examples_command,
    test_examples_command, record_command_command, run_trained_command, hm]

/-- C8, witness: all six subcommands exit with status 1 when the dictionary
file is missing. -/
theorem trained_commands_exit_when_missing_witness :
    transcribe_command ⟨false, true, true⟩ (fun _ => (0 : Nat)) = CommandOutcome.exited 1
    ∧ recognize_command ⟨false, true, true⟩ (fun _ => (0 : Nat)) = CommandOutcome.exited 1
    ∧ generate_command ⟨false, true, true⟩ (fun _ => (0 : Nat)) = CommandOutcome.exited 1
    ∧ record_examples_command ⟨false, true, true⟩ (fun _ => (0 : Nat)) = CommandOutcome.exited 1
    ∧ test_examples_command ⟨false, true, true⟩ (fun _ => (0 : Nat)) = CommandOutcome.exited 1
    ∧ record_command_command ⟨false, true, true⟩ (fun _ => (0 : Nat)) = CommandOutcome.exited 1 :=
  trained_commands_exit_when_missing ⟨false, true, true⟩ _ _ _ _ _ _ (Or.inl rfl)

/-- C10: in JSON input mode the recognize subcommand preserves the caller's
record: after merging the recognized intent into the parsed input object,
every key absent from the intent keeps the input object's value, and every
key of the intent carries the intent's value. -/
theorem recognize_json_merge_frame {α : Type} (sentence_object intent : List (String × α))
    (k : String) (hnd : (intent.map Prod.fst).Nodup) :
    (¬ k ∈ intent.map Prod.fst →
      dict_get (recognize_merge_output sentence_object intent) k = dict_get sentence_object k)
    ∧ (k ∈ intent.map Prod.fst →
      dict_get (recognize_merge_output sentence_object intent) k = dict_get intent k) := by
  have h := dict_get_fold_set intent sentence_object k
  constructor
  · intro hk
    have : last_value intent k = none := by
      cases hlv : last_value intent k with
      | none => rfl
      | some v => exact absurd ((last_value_isSome intent k).mp (by simp [hlv])) hk
    rw [recognize_merge_output, h, this]
  · intro hk
    rw [recognize_merge_output, h, last_value_eq_dict_get_of_nodup intent k hnd]
    cases hg : dict_get intent k with
    | some v => simp
    | none =>
      have := (last_value_isSome intent k).mpr hk
      rw [last_value_eq_dict_get_of_nodup intent k hnd, hg] at this
      simp at this

/-- C10, witness: a concrete merge where the key "extra" is only in the input
object and survives unchanged, while "text" is overwritten by the intent. -/
theorem recognize_json_merge_frame_witness :
    dict_get (recognize_merge_output [("text", "x"), ("extra", "keep")]
        [("text", "y"), ("intent", "GetTime")]) "extra" = some "keep"
    ∧ dict_get (recognize_merge_output [("text", "x"), ("extra", "keep")]
        [("text", "y"), ("intent", "GetTime")]) "text" = some "y" := by
  constructor
  · have h := (recognize_json_merge_frame [("text", "x"), ("extra", "keep")]
      [("text", "y"), ("intent", "GetTime")] "extra" (by decide)).1 (by decide)
    rw [h]; decide
  · have h := (recognize_json_merge_frame [("text", "x"), ("extra", "keep")]
      [("text", "y"), ("intent", "GetTime")] "text" (by decide)).2 (by decide)
    rw [h]; decide

theorem string_length_pos_of_ne_empty (s : String) (h : s ≠ "") : 0 < s.length := by
  cases s with
  | mk data =>
    cases data with
    | nil => exact absurd rfl h
    | cons c cs => simp [String.length]

theorem mem_py_set_add (s : List String) (x y : String) :
    x ∈ py_set_add s y ↔ x ∈ s ∨ x = y := by
  by_cases h : y ∈ s
  · simp only [py_set_add, if_pos h]
    constructor
    · exact Or.inl
    · rintro (hx | hx)
      · exact hx
      · subst hx; exact h
  · simp [py_set_add, if_neg h]

theorem mem_foldl_py_set_add (l : List String) :
    ∀ (acc : List String) (x : String),
    x ∈ l.foldl py_set_add acc ↔ x ∈ acc ∨ x ∈ l := by
  induction l with
  | nil => intro acc x; simp
  | cons a rest ih =>
    intro acc x
    simp only [List.foldl_cons]
    rw [ih, mem_py_set_add, List.mem_cons]
    tauto

theorem whitelist_fold_some (lines : List String) :
    ∀ (wl S : List String) (x : String),
    x ∈ (lines.foldl whitelist_step (some wl, S)).2 ↔
      x ∈ S ∨ x ∈ (lines.map py_strip).filter (fun s => decide (0 < s.length)) := by
  induction lines with
  | nil => intro wl S x; simp
  | cons l rest ih =>
    intro wl S x
    by_cases hl : 0 < (py_strip l).length
    · have hstep : whitelist_step (some wl, S) l
          = (some (wl ++ [py_strip l]), py_set_add S (py_strip l)) := by
        simp [whitelist_step, hl]
      simp only [List.foldl_cons, hstep, List.map_cons, List.filter_cons]
      rw [ih, mem_py_set_add, if_pos (decide_eq_true hl), List.mem_cons]
      tauto
    · have hstep : whitelist_step (some wl, S) l = (some wl, S) := by
        simp [whitelist_step, hl]
      simp only [List.foldl_cons, hstep, List.map_cons, List.filter_cons]
      rw [ih]
      simp [hl]

theorem whitelist_fold_none_all_blank (lines : List String) :
    ∀ (S : List String), (∀ l ∈ lines, py_strip l = "") →
    lines.foldl whitelist_step (none, S) = (none, S) := by
  induction lines with
  | nil => intro S _; rfl
  | cons l rest ih =>
    intro S h
    have hl : py_strip l = "" := h l (by simp)
    have hstep : whitelist_step (none, S) l = (none, S) := by
      simp [whitelist_step, hl]
    simp only [List.foldl_cons, hstep]
    exact ih S (fun x hx => h x (by simp [hx]))

theorem whitelist_fold_none_with_nonblank (lines : List String) :
    ∀ (S : List String) (x : String), (∃ l ∈ lines, py_strip l ≠ "") →
    (x ∈ (lines.foldl whitelist_step (none, S)).2 ↔
      x ∈ (lines.map py_strip).filter (fun s => decide (0 < s.length))) := by
  induction lines with
  | nil =>
    intro S x h
    rcases h with ⟨l, hmem, _⟩
    cases hmem
  | cons l rest ih =>
    intro S x h
    by_cases hl : py_strip l = ""
    · have hstep : whitelist_step (none, S) l = (none, S) := by
        simp [whitelist_step, hl]
      simp only [List.foldl_cons, hstep, List.map_cons, List.filter_cons]
      have hrest : ∃ l2 ∈ rest, py_strip l2 ≠ "" := by
        rcases h with ⟨l2, hmem, hnb⟩
        rcases List.mem_cons.mp hmem with rfl | hmem2
        · exact absurd hl hnb
        · exact ⟨l2, hmem2, hnb⟩
      rw [ih S x hrest]
      simp [hl]
    · have hlen : 0 < (py_strip l).length := string_length_pos_of_ne_empty _ hl
      have hstep : whitelist_step (none, S) l
          = (some [py_strip l], py_set_add [] (py_strip l)) := by
        simp [whitelist_step, hlen]
      simp only [List.foldl_cons, hstep, List.map_cons, List.filter_cons]
      rw [whitelist_fold_some rest [py_strip l] (py_set_add [] (py_strip l)) x,
        mem_py_set_add, if_pos (decide_eq_true hlen), List.mem_cons]
      simp only [List.not_mem_nil, false_or]

/-- C9: intent selection for training is exact — when the whitelist file
exists and has at least one line that is non-blank after stripping, the
trained intent set is exactly the stripped non-blank lines of the whitelist;
otherwise (no whitelist file, or one whose lines are all blank) it is exactly
the section-header names matched at the start of the stripped lines of
sentences.ini. -/
theorem train_intents_selection (sentences_ini_lines : List String)
    (whitelist_file : Option (List String)) (x : String) :
    (∀ wl, whitelist_file = some wl → (∃ l ∈ wl, py_strip l ≠ "") →
      (x ∈ train_profile_intents sentences_ini_lines whitelist_file ↔
        x ∈ (wl.map py_strip).filter (fun s => decide (0 < s.length))))
    ∧ ((whitelist_file = none ∨ ∃ wl, whitelist_file = some wl ∧ ∀ l ∈ wl, py_strip l = "") →
      (x ∈ train_profile_intents sentences_ini_lines whitelist_file ↔
        x ∈ get_intents sentences_ini_lines)) := by
  constructor
  · rintro wl rfl hnb
    simp only [train_profile_intents]
    exact whitelist_fold_none_with_nonblank wl _ x hnb
  · rintro (rfl | ⟨wl, rfl, hblank⟩)
    · simp only [train_profile_intents]
      rw [mem_foldl_py_set_add]
      simp
    · simp only [train_profile_intents]
      rw [whitelist_fold_none_all_blank wl _ hblank]
      rw [mem_foldl_py_set_add]
      simp

/-- C9, witness: with a whitelist file holding one padded intent name and one
blank line, the trained intent set contains the stripped name. -/
theorem train_intents_selection_witness :
    "GetTime" ∈ train_profile_intents ["[GetTime]", "what time is it"]
      (some ["  GetTime ", ""]) := by
  have h := (train_intents_selection ["[GetTime]", "what time is it"]
      (some ["  GetTime ", ""]) "GetTime").1 ["  GetTime ", ""] rfl
      ⟨"  GetTime ", by decide, by decide⟩
  exact h.mpr (by decide)
